import Mathlib

/-!
# gplan: the repository layer (task store and project store)

A shallow embedding of `pkg/repository/task_repo.go` and of
`repository/project_repo.go`.

* A table is the list of its rows, in insertion order.  The operations
  embedded here select rows by `ID` only, so they do not observe the order in
  which a full scan would return the rows.  The `Tasks` table has the integer
  primary key `ID`; an `INSERT` whose `ID` is already stored fails with a
  uniqueness error.
* Go `int` and SQLite `INTEGER` values are integers (`Int`); the 64-bit range
  is `minInt64 .. maxInt64`.  Integer arithmetic that leaves this range yields
  a `REAL` in SQLite, which `Scan` does not convert into a Go `int`
  (`scanInt`).
* Project IDs are supplied by the caller of `CreateProject`, so
  `GetNextProjectID` carries the failing `Scan`.
* Task IDs are only ever produced by the allocation query of `CreateTask`,
  counting up from 1: a task ID at `maxInt64` takes `2 ^ 63 - 1` creations.
  `CreateTask` is embedded for the stores below that limit, where the value of
  the query is a Go `int` and its `Scan` succeeds; the theorem on the run of
  IDs above the least stored ID states this bound as a hypothesis.
* `time.Now()` is an input: every call site receives the instant it reads as an
  argument.  Instants are stored and read back unchanged.
* A Go method that mutates the record behind its `*models.Task` argument
  returns the mutated record next to the new store.
* I/O failures of the storage engine are not modelled; the foreign key of
  `Tasks.ProjectID` is declared but the connection never switches its
  enforcement on, so it rejects nothing.
-/

namespace Gplan

/-- An instant as read by `time.Now()`. -/
abbrev Time := Int

/-- Modelled from the spec: the record type `models.Task` (package `pkg/models`
is not among the sources).  One field per column that `task_repo.go` writes and
scans, with the column types of `repository.go`. -/
structure Task where
  ID : Int
  Name : String
  Description : String
  ProjectID : Int
  TaskCompleted : Bool
  DueDate : Option Time
  CompletionDate : Option Time
  CreationDate : Time
  LastUpdatedDate : Time
  Priority : Int
deriving DecidableEq

/-- Modelled from the spec: the record type `models.Project` (package `models`
is not among the sources), with the attributes listed in the data model. -/
structure Project where
  ID : Int
  Name : String
  Description : String
  CreationDate : Time
  LastModifiedDate : Time
  ParentProjectID : Option Int
deriving DecidableEq

/-- The errors the modelled statements can return. -/
inductive DBError where
  /-- The error `sql.ErrNoRows` of `QueryRow(...).Scan` when no row matches. -/
  | ErrNoRows
  /-- The error of an `INSERT` whose primary key is already stored. -/
  | UniqueConstraint
  /-- The error of `Scan` into a Go `int` when the column holds a `REAL`. -/
  | ScanConversion
deriving DecidableEq

/-- The database behind `Repository.db`: the rows of the two tables. -/
structure Repository where
  Tasks : List Task
  Projects : List Project
deriving DecidableEq

/-- The IDs stored in the `Tasks` table, in row order. -/
def taskIDs (r : Repository) : List Int :=
  r.Tasks.map fun t => t.ID

/-- The IDs stored in the `Projects` table, in row order. -/
def projectIDs (r : Repository) : List Int :=
  r.Projects.map fun p => p.ID

/-- The largest Go `int`, `math.MaxInt64`. -/
def maxInt64 : Int := 9223372036854775807

/-- The smallest Go `int`, `math.MinInt64`. -/
def minInt64 : Int := -9223372036854775808

/-! ## The SQL fragments used by the queries -/

/-- The conversion of `Scan` from the value `v` of an integer expression into a
Go `int`: outside the 64-bit range SQLite has computed a `REAL`, whose text
form is not accepted as an integer. -/
def scanInt (v : Int) : Except DBError Int :=
  if minInt64 ≤ v ∧ v ≤ maxInt64 then .ok v else .error .ScanConversion

/-- The rows of `l LEFT JOIN r ON cond`: every pair that satisfies `cond`, and
a row of `l` without a partner once, padded with `NULL` (`none`). -/
def leftJoin : List Task → List Task → (Task → Task → Bool) → List (Task × Option Task)
  | [], _, _ => []
  | a :: l, r, cond =>
    (match r.filter (cond a) with
      | [] => [(a, none)]
      | ms => ms.map fun b => (a, some b)) ++ leftJoin l r cond

/-- The aggregate `MIN`: `NULL` (`none`) over no rows. -/
def sqlMin : List Int → Option Int
  | [] => none
  | x :: xs => some (xs.foldl min x)

/-- The aggregate `MAX`: `NULL` (`none`) over no rows. -/
def sqlMax : List Int → Option Int
  | [] => none
  | x :: xs => some (xs.foldl max x)

/-- The function `COALESCE(v, d)` for two arguments. -/
def coalesce (v : Option Int) (d : Int) : Int :=
  match v with
  | some x => x
  | none => d

/-- The values `t1.ID + 1` of
`FROM Tasks t1 LEFT JOIN Tasks t2 ON t1.ID + 1 = t2.ID WHERE t2.ID IS NULL`. -/
def unusedSuccessors (tasks : List Task) : List Int :=
  ((leftJoin tasks tasks fun t1 t2 => t1.ID + 1 == t2.ID).filter
      fun p => (p.2.map fun t2 => t2.ID).isNone).map fun p => p.1.ID + 1

/-- The value of the query of `CreateTask`:
`SELECT COALESCE(MIN(t1.ID + 1), 1) FROM Tasks t1 LEFT JOIN Tasks t2
 ON t1.ID + 1 = t2.ID WHERE t2.ID IS NULL`.  It is a Go `int` as long as no
stored ID is `maxInt64` (`lowestUnusedIDQuery_le_maxInt64`). -/
def lowestUnusedIDQuery (r : Repository) : Int :=
  coalesce (sqlMin (unusedSuccessors r.Tasks)) 1

/-- The statement `INSERT INTO Tasks (ID, ...) VALUES (...)`: refused when the
primary key is already stored. -/
def insertTask (tasks : List Task) (row : Task) : Except DBError (List Task) :=
  if tasks.any (fun t => t.ID == row.ID) then .error .UniqueConstraint
  else .ok (tasks ++ [row])

/-! ## The task store -/

/-- The method `CreateTask` on a store without a task of ID `maxInt64`, where
the `Scan` of the query succeeds; `now1` and `now2` are the two readings of
`time.Now()`.  Returns the error, the caller's record as left by the call, and
the store. -/
def CreateTask (r : Repository) (task : Task) (now1 now2 : Time) :
    Option DBError × Task × Repository :=
  let task1 := { task with CreationDate := now1 }
  let task2 := { task1 with LastUpdatedDate := now2 }
  let id := lowestUnusedIDQuery r
  match insertTask r.Tasks { task2 with ID := id } with
  | .error e => (some e, task2, r)
  | .ok rows => (none, { task2 with ID := id }, { r with Tasks := rows })

/-- The method `GetTaskByID`: the row selected by `WHERE ID = ?`, or
`sql.ErrNoRows`. -/
def GetTaskByID (r : Repository) (id : Int) : Except DBError Task :=
  match r.Tasks.find? (fun t => t.ID == id) with
  | some t => .ok t
  | none => .error .ErrNoRows

/-- The row assignment of `UPDATE Tasks SET Name = ?, ..., Priority = ?`. -/
def setTaskColumns (row task : Task) : Task :=
  { row with
    Name := task.Name
    Description := task.Description
    ProjectID := task.ProjectID
    TaskCompleted := task.TaskCompleted
    DueDate := task.DueDate
    CompletionDate := task.CompletionDate
    LastUpdatedDate := task.LastUpdatedDate
    Priority := task.Priority }

/-- The method `UpdateTask`; `now` is the reading of `time.Now()`.  Returns the
error, the caller's record as left by the call, and the store. -/
def UpdateTask (r : Repository) (task : Task) (now : Time) :
    Option DBError × Task × Repository :=
  let task1 := { task with LastUpdatedDate := now }
  (none, task1,
    { r with Tasks := r.Tasks.map fun row =>
        if row.ID == task1.ID then setTaskColumns row task1 else row })

/-- The method `DeleteTask`: `DELETE FROM Tasks WHERE ID = ?`. -/
def DeleteTask (r : Repository) (id : Int) : Option DBError × Repository :=
  (none, { r with Tasks := r.Tasks.filter fun t => !(t.ID == id) })

/-! ## The project store -/

/-- The method `GetNextProjectID`: `SELECT COALESCE(MAX(id), 0) + 1` over the
projects, scanned into `maxID`, which stays 0 when the `Scan` fails.  Returns
`maxID`, the error, and the store. -/
def GetNextProjectID (r : Repository) : Int × Option DBError × Repository :=
  match scanInt (coalesce (sqlMax (projectIDs r)) 0 + 1) with
  | .ok v => (v, none, r)
  | .error e => (0, some e, r)

/-! ## Sequences of calls -/

/-- One call of a mutating method of the task store, with its clock readings. -/
inductive TaskOp where
  | create (task : Task) (now1 now2 : Time)
  | update (task : Task) (now : Time)
  | delete (id : Int)

/-- The store after one call. -/
def applyOp (r : Repository) : TaskOp → Repository
  | .create task now1 now2 => (CreateTask r task now1 now2).2.2
  | .update task now => (UpdateTask r task now).2.2
  | .delete id => (DeleteTask r id).2

/-- The store after a sequence of calls, first call first. -/
def runOps (r : Repository) (ops : List TaskOp) : Repository :=
  ops.foldl applyOp r

/-- Successive `CreateTask` calls, one per argument triple; returns the error
and the caller's record of every call, in call order, and the final store. -/
def createTasks (r : Repository) :
    List (Task × Time × Time) → List (Option DBError × Task) × Repository
  | [] => ([], r)
  | (task, now1, now2) :: rest =>
    let res := CreateTask r task now1 now2
    let tl := createTasks res.2.2 rest
    ((res.1, res.2.1) :: tl.1, tl.2)

/-- A store with no task and the given projects. -/
def noTasks (ps : List Project) : Repository :=
  { Tasks := [], Projects := ps }

/-- A project record with the given ID and otherwise default contents. -/
def sampleProject (id : Int) : Project :=
  { ID := id, Name := "p", Description := "", CreationDate := 0, LastModifiedDate := 0,
    ParentProjectID := none }

/-- A task record of project 1 with the given ID and otherwise default contents. -/
def sampleTask (id : Int) : Task :=
  { ID := id, Name := "t", Description := "", ProjectID := 1, TaskCompleted := false,
    DueDate := none, CompletionDate := none, CreationDate := 0, LastUpdatedDate := 0,
    Priority := 4 }

/-- A store with project 1 whose tasks have the given IDs. -/
def storeWithIDs (ids : List Int) : Repository :=
  { Tasks := ids.map sampleTask, Projects := [sampleProject 1] }

/-- The integers `1, 2, ..., n`, in that order. -/
def firstIDs (n : Nat) : List Int :=
  (List.range' 1 n).map Int.ofNat

/-- Three creations followed by the deletion of task 1. -/
def createThreeDeleteFirst : List TaskOp :=
  [.create (sampleTask 0) 10 10, .create (sampleTask 0) 20 20, .create (sampleTask 0) 30 30,
   .delete 1]

/-- A record for task 2 whose every field differs from `sampleTask 2`. -/
def editedTask : Task :=
  { ID := 2, Name := "edited", Description := "d", ProjectID := 7, TaskCompleted := true,
    DueDate := some 50, CompletionDate := some 60, CreationDate := 777, LastUpdatedDate := 888,
    Priority := 1 }

/-- A store whose projects have the given IDs. -/
def storeWithProjectIDs (ids : List Int) : Repository :=
  { Tasks := [], Projects := ids.map sampleProject }

/-- The stored task IDs are pairwise distinct and at least 1. -/
def IDsValid (r : Repository) : Prop :=
  (taskIDs r).Nodup ∧ ∀ x ∈ taskIDs r, 1 ≤ x

/-! ## The aggregates -/

theorem foldl_min_spec (xs : List Int) (x : Int) :
    xs.foldl min x ∈ x :: xs ∧ ∀ y ∈ x :: xs, xs.foldl min x ≤ y := by
  induction xs generalizing x with
  | nil => simp
  | cons a as ih =>
    simp only [List.foldl_cons]
    obtain ⟨hm, hle⟩ := ih (min x a)
    have h0 := hle (min x a) (List.mem_cons_self _ _)
    constructor
    · rcases List.mem_cons.1 hm with h | h
      · rw [h]
        rcases min_choice x a with h1 | h1 <;> simp [h1]
      · simp [h]
    · intro y hy
      rcases List.mem_cons.1 hy with h | h
      · subst h
        exact le_trans h0 (min_le_left _ _)
      · rcases List.mem_cons.1 h with h | h
        · subst h
          exact le_trans h0 (min_le_right _ _)
        · exact hle y (List.mem_cons_of_mem _ h)

theorem foldl_max_spec (xs : List Int) (x : Int) :
    xs.foldl max x ∈ x :: xs ∧ ∀ y ∈ x :: xs, y ≤ xs.foldl max x := by
  induction xs generalizing x with
  | nil => simp
  | cons a as ih =>
    simp only [List.foldl_cons]
    obtain ⟨hm, hle⟩ := ih (max x a)
    have h0 := hle (max x a) (List.mem_cons_self _ _)
    constructor
    · rcases List.mem_cons.1 hm with h | h
      · rw [h]
        rcases max_choice x a with h1 | h1 <;> simp [h1]
      · simp [h]
    · intro y hy
      rcases List.mem_cons.1 hy with h | h
      · subst h
        exact le_trans (le_max_left _ _) h0
      · rcases List.mem_cons.1 h with h | h
        · subst h
          exact le_trans (le_max_right _ _) h0
        · exact hle y (List.mem_cons_of_mem _ h)

theorem sqlMin_eq_some {l : List Int} {m : Int} (h : sqlMin l = some m) :
    m ∈ l ∧ ∀ y ∈ l, m ≤ y := by
  cases l with
  | nil => simp [sqlMin] at h
  | cons x xs =>
    simp only [sqlMin, Option.some.injEq] at h
    subst h
    exact foldl_min_spec xs x

theorem sqlMin_isSome {l : List Int} (h : l ≠ []) : ∃ m, sqlMin l = some m := by
  cases l with
  | nil => exact absurd rfl h
  | cons x xs => exact ⟨_, rfl⟩

theorem sqlMax_eq_some {l : List Int} {m : Int} (h : sqlMax l = some m) :
    m ∈ l ∧ ∀ y ∈ l, y ≤ m := by
  cases l with
  | nil => simp [sqlMax] at h
  | cons x xs =>
    simp only [sqlMax, Option.some.injEq] at h
    subst h
    exact foldl_max_spec xs x

theorem sqlMax_isSome {l : List Int} (h : l ≠ []) : ∃ m, sqlMax l = some m := by
  cases l with
  | nil => exact absurd rfl h
  | cons x xs => exact ⟨_, rfl⟩

/-! ## The left join of the allocation query -/

theorem mem_leftJoin (l r : List Task) (cond : Task → Task → Bool) (p : Task × Option Task) :
    p ∈ leftJoin l r cond ↔
      p.1 ∈ l ∧ ((p.2 = none ∧ r.filter (cond p.1) = []) ∨
        ∃ b, p.2 = some b ∧ b ∈ r ∧ cond p.1 b = true) := by
  induction l with
  | nil => simp [leftJoin]
  | cons a l ih =>
    obtain ⟨p1, p2⟩ := p
    simp only [leftJoin, List.mem_append, ih, List.mem_cons]
    constructor
    · rintro (h | h)
      · cases hf : r.filter (cond a) with
        | nil =>
          rw [hf] at h
          simp only [List.mem_singleton, Prod.mk.injEq] at h
          obtain ⟨rfl, rfl⟩ := h
          exact ⟨Or.inl rfl, Or.inl ⟨rfl, hf⟩⟩
        | cons b bs =>
          rw [hf] at h
          simp only [List.mem_map, Prod.mk.injEq] at h
          obtain ⟨c, hc, rfl, rfl⟩ := h
          have hc2 : c ∈ r.filter (cond a) := by rw [hf]; exact hc
          rw [List.mem_filter] at hc2
          exact ⟨Or.inl rfl, Or.inr ⟨c, rfl, hc2.1, hc2.2⟩⟩
      · exact ⟨Or.inr h.1, h.2⟩
    · rintro ⟨h1 | h1, h2⟩
      · subst h1
        left
        rcases h2 with ⟨rfl, hf⟩ | ⟨b, rfl, hb, hcb⟩
        · rw [hf]
          simp
        · have hb2 : b ∈ r.filter (cond p1) := List.mem_filter.2 ⟨hb, hcb⟩
          cases hf : r.filter (cond p1) with
          | nil => rw [hf] at hb2; simp at hb2
          | cons c cs =>
            rw [List.mem_map]
            exact ⟨b, by rw [← hf]; exact hb2, rfl⟩
      · exact Or.inr ⟨h1, h2⟩

theorem mem_unusedSuccessors (tasks : List Task) (c : Int) :
    c ∈ unusedSuccessors tasks ↔
      ∃ t ∈ tasks, c = t.ID + 1 ∧ ∀ t2 ∈ tasks, t2.ID ≠ t.ID + 1 := by
  unfold unusedSuccessors
  simp only [List.mem_map, List.mem_filter, mem_leftJoin]
  constructor
  · rintro ⟨⟨t, o⟩, ⟨⟨ht, hcase⟩, hnone⟩, rfl⟩
    refine ⟨t, ht, rfl, ?_⟩
    rcases hcase with ⟨-, hf⟩ | ⟨b, hb, -, -⟩
    · intro t2 ht2 heq
      have : t2 ∈ tasks.filter (fun t2 => t.ID + 1 == t2.ID) :=
        List.mem_filter.2 ⟨ht2, by simp [heq]⟩
      simp only at hf
      rw [hf] at this
      simp at this
    · simp only at hb
      subst hb
      simp at hnone
  · rintro ⟨t, ht, rfl, hno⟩
    refine ⟨(t, none), ⟨⟨ht, Or.inl ⟨rfl, ?_⟩⟩, by simp⟩, rfl⟩
    rw [List.filter_eq_nil_iff]
    intro t2 ht2
    have := hno t2 ht2
    simp only [beq_iff_eq]
    exact fun h => this h.symm

theorem mem_taskIDs (r : Repository) (n : Int) :
    n ∈ taskIDs r ↔ ∃ t ∈ r.Tasks, t.ID = n := by
  simp [taskIDs]

/-- Below any unused integer above a stored ID lies a value the join keeps. -/
theorem exists_unusedSuccessor_le (r : Repository) (m : Int) (hm : m ∈ taskIDs r) :
    ∀ (k : Nat) (n : Int), m < n → n ∉ taskIDs r → n - m ≤ k →
      ∃ c ∈ unusedSuccessors r.Tasks, c ≤ n := by
  intro k
  induction k with
  | zero => intro n h1 _ h3; omega
  | succ k ih =>
    intro n h1 h2 h3
    by_cases hp : n - 1 ∈ taskIDs r
    · obtain ⟨t, ht, hid⟩ := (mem_taskIDs r _).1 hp
      refine ⟨n, (mem_unusedSuccessors _ _).2 ⟨t, ht, by omega, ?_⟩, le_refl _⟩
      intro t2 ht2 heq
      exact h2 ((mem_taskIDs r _).2 ⟨t2, ht2, by omega⟩)
    · have hne : n - 1 ≠ m := fun h => hp (h ▸ hm)
      obtain ⟨c, hc, hle⟩ := ih (n - 1) (by omega) hp (by omega)
      exact ⟨c, hc, by omega⟩

/-- Some integer above `m` is not a stored ID. -/
theorem exists_unused_above (r : Repository) (m : Int) :
    ∃ n, m < n ∧ n ∉ taskIDs r := by
  refine ⟨(taskIDs r).foldl max m + 1, ?_, ?_⟩
  · have := (foldl_max_spec (taskIDs r) m).2 m (List.mem_cons_self _ _)
    omega
  · intro h
    have := (foldl_max_spec (taskIDs r) m).2 _ (List.mem_cons_of_mem _ h)
    omega

/-- On a non-empty table the query returns a kept value `t.ID + 1`, the least
of them. -/
theorem lowestUnusedIDQuery_spec (r : Repository) (m : Int) (hm : m ∈ taskIDs r) :
    lowestUnusedIDQuery r ∈ unusedSuccessors r.Tasks ∧
      ∀ c ∈ unusedSuccessors r.Tasks, lowestUnusedIDQuery r ≤ c := by
  obtain ⟨n, hn1, hn2⟩ := exists_unused_above r m
  obtain ⟨c, hc, -⟩ := exists_unusedSuccessor_le r m hm (n - m).toNat n hn1 hn2 (by omega)
  obtain ⟨q, hq⟩ := sqlMin_isSome (List.ne_nil_of_mem hc)
  have hspec := sqlMin_eq_some hq
  simp only [lowestUnusedIDQuery, hq, coalesce]
  exact hspec

theorem lowestUnusedIDQuery_nil (r : Repository) (h : r.Tasks = []) :
    lowestUnusedIDQuery r = 1 := by
  simp [lowestUnusedIDQuery, h, unusedSuccessors, leftJoin, sqlMin, coalesce]

/-- The value of the query is never a stored ID. -/
theorem lowestUnusedIDQuery_not_mem (r : Repository) :
    lowestUnusedIDQuery r ∉ taskIDs r := by
  cases hT : r.Tasks with
  | nil => simp [taskIDs, hT]
  | cons t ts =>
    have hm : t.ID ∈ taskIDs r := (mem_taskIDs r _).2 ⟨t, by simp [hT], rfl⟩
    obtain ⟨t1, -, hq, hno⟩ :=
      (mem_unusedSuccessors _ _).1 (lowestUnusedIDQuery_spec r t.ID hm).1
    intro hmem
    obtain ⟨t2, ht2, hid⟩ := (mem_taskIDs r _).1 hmem
    rw [hT] at hno
    rw [hT] at ht2
    exact hno t2 ht2 (by omega)

/-- Above the least stored ID `m`, the query returns the least unused integer. -/
theorem lowestUnusedIDQuery_isLeast (r : Repository) (m : Int) (hm : m ∈ taskIDs r)
    (hmin : ∀ x ∈ taskIDs r, m ≤ x) :
    IsLeast {n : Int | m < n ∧ n ∉ taskIDs r} (lowestUnusedIDQuery r) := by
  obtain ⟨hq, hle⟩ := lowestUnusedIDQuery_spec r m hm
  constructor
  · obtain ⟨t1, ht1, hq1, -⟩ := (mem_unusedSuccessors _ _).1 hq
    have := hmin t1.ID ((mem_taskIDs r _).2 ⟨t1, ht1, rfl⟩)
    exact ⟨by omega, lowestUnusedIDQuery_not_mem r⟩
  · rintro n ⟨hn1, hn2⟩
    obtain ⟨c, hc, hcn⟩ := exists_unusedSuccessor_le r m hm (n - m).toNat n hn1 hn2 (by omega)
    exact le_trans (hle c hc) hcn

/-! ## `CreateTask` -/

theorem insertTask_lowestUnusedID (r : Repository) (row : Task)
    (h : row.ID = lowestUnusedIDQuery r) :
    insertTask r.Tasks row = .ok (r.Tasks ++ [row]) := by
  unfold insertTask
  have hno := lowestUnusedIDQuery_not_mem r
  have : (r.Tasks.any fun t => t.ID == row.ID) = false := by
    rw [List.any_eq_false]
    intro t ht heq
    rw [beq_iff_eq] at heq
    exact hno ((mem_taskIDs r _).2 ⟨t, ht, by omega⟩)
  simp [this]

theorem insertTask_ok {tasks rows : List Task} {row : Task}
    (h : insertTask tasks row = .ok rows) :
    rows = tasks ++ [row] ∧ ∀ t ∈ tasks, t.ID ≠ row.ID := by
  unfold insertTask at h
  split at h
  · cases h
  · rename_i hany
    simp only [Except.ok.injEq] at h
    refine ⟨h.symm, fun t ht heq => hany ?_⟩
    rw [List.any_eq_true]
    exact ⟨t, ht, by simpa using heq⟩

/-- The insert of `CreateTask` is never refused: the call returns no error,
the record with the stamps and the value of the query, and the store with
that record as a further row. -/
theorem CreateTask_eq (r : Repository) (task : Task) (now1 now2 : Time) :
    CreateTask r task now1 now2 =
      (none,
        { task with CreationDate := now1, LastUpdatedDate := now2, ID := lowestUnusedIDQuery r },
        { r with Tasks := r.Tasks ++
            [{ task with CreationDate := now1, LastUpdatedDate := now2,
                         ID := lowestUnusedIDQuery r }] }) := by
  unfold CreateTask
  simp only []
  rw [insertTask_lowestUnusedID r _ rfl]

theorem CreateTask_err (r : Repository) (task : Task) (now1 now2 : Time) :
    (CreateTask r task now1 now2).1 = none := by
  rw [CreateTask_eq]

theorem CreateTask_ID (r : Repository) (task : Task) (now1 now2 : Time) :
    (CreateTask r task now1 now2).2.1.ID = lowestUnusedIDQuery r := by
  rw [CreateTask_eq]

theorem taskIDs_CreateTask (r : Repository) (task : Task) (now1 now2 : Time) :
    taskIDs (CreateTask r task now1 now2).2.2 = taskIDs r ++ [lowestUnusedIDQuery r] := by
  rw [CreateTask_eq]
  simp [taskIDs]

theorem taskIDs_UpdateTask (r : Repository) (task : Task) (now : Time) :
    taskIDs (UpdateTask r task now).2.2 = taskIDs r := by
  simp only [UpdateTask, taskIDs, List.map_map]
  apply List.map_congr_left
  intro row _
  simp only [Function.comp]
  split <;> rfl

theorem taskIDs_DeleteTask (r : Repository) (id : Int) :
    taskIDs (DeleteTask r id).2 = (taskIDs r).filter fun x => !(x == id) := by
  simp only [DeleteTask, taskIDs, List.filter_map]
  rfl

/-- On stored IDs that are all at least 1 the query returns at least 1. -/
theorem one_le_lowestUnusedIDQuery (r : Repository) (hpos : ∀ x ∈ taskIDs r, 1 ≤ x) :
    1 ≤ lowestUnusedIDQuery r := by
  cases hT : r.Tasks with
  | nil => rw [lowestUnusedIDQuery_nil r hT]
  | cons t ts =>
    have hm : t.ID ∈ taskIDs r := (mem_taskIDs r _).2 ⟨t, by simp [hT], rfl⟩
    obtain ⟨t1, ht1, hq, -⟩ :=
      (mem_unusedSuccessors _ _).1 (lowestUnusedIDQuery_spec r t.ID hm).1
    have := hpos t1.ID ((mem_taskIDs r _).2 ⟨t1, ht1, rfl⟩)
    omega

/-- With ID 1 stored and no ID below 1, the query returns the least unused
positive integer. -/
theorem lowestUnusedIDQuery_isLeast_pos (r : Repository) (hpos : ∀ x ∈ taskIDs r, 1 ≤ x)
    (h1 : 1 ∈ taskIDs r) :
    IsLeast {n : Int | 1 ≤ n ∧ n ∉ taskIDs r} (lowestUnusedIDQuery r) := by
  obtain ⟨⟨hq1, hq2⟩, hle⟩ := lowestUnusedIDQuery_isLeast r 1 h1 hpos
  refine ⟨⟨le_of_lt hq1, hq2⟩, ?_⟩
  rintro n ⟨hn1, hn2⟩
  have hne : n ≠ 1 := fun h => hn2 (h ▸ h1)
  exact hle ⟨by omega, hn2⟩

/-! ## The invariant of the stored IDs -/

theorem IDsValid_noTasks (ps : List Project) : IDsValid (noTasks ps) := by
  simp [IDsValid, noTasks, taskIDs]

theorem IDsValid_applyOp (r : Repository) (op : TaskOp) (h : IDsValid r) :
    IDsValid (applyOp r op) := by
  obtain ⟨hnd, hpos⟩ := h
  cases op with
  | create task now1 now2 =>
    simp only [applyOp, IDsValid, taskIDs_CreateTask]
    constructor
    · rw [List.nodup_append]
      refine ⟨hnd, List.nodup_singleton _, ?_⟩
      intro a ha hb
      rw [List.mem_singleton] at hb
      subst hb
      exact lowestUnusedIDQuery_not_mem r ha
    · intro x hx
      rcases List.mem_append.1 hx with hx | hx
      · exact hpos x hx
      · rw [List.mem_singleton] at hx
        subst hx
        exact one_le_lowestUnusedIDQuery r hpos
  | update task now =>
    simp only [applyOp, IDsValid, taskIDs_UpdateTask]
    exact ⟨hnd, hpos⟩
  | delete id =>
    simp only [applyOp, IDsValid, taskIDs_DeleteTask]
    exact ⟨hnd.filter _, fun x hx => hpos x (List.mem_filter.1 hx).1⟩

theorem IDsValid_runOps (ops : List TaskOp) (r : Repository) (h : IDsValid r) :
    IDsValid (runOps r ops) := by
  induction ops generalizing r with
  | nil => exact h
  | cons op ops ih => exact ih _ (IDsValid_applyOp r op h)

/-! ## Successive creations -/

theorem mem_firstIDs (k : Nat) (x : Int) : x ∈ firstIDs k ↔ 1 ≤ x ∧ x ≤ k := by
  simp only [firstIDs, List.mem_map, List.mem_range'_1]
  constructor
  · rintro ⟨a, ⟨h1, h2⟩, rfl⟩
    simp only [Int.ofNat_eq_coe]
    omega
  · intro h
    refine ⟨x.toNat, by omega, ?_⟩
    simp only [Int.ofNat_eq_coe]
    omega

theorem firstIDs_succ (k : Nat) : firstIDs (k + 1) = firstIDs k ++ [(k : Int) + 1] := by
  simp only [firstIDs, List.range'_1_concat, List.map_append, List.map_cons, List.map_nil,
    Int.ofNat_eq_coe]
  congr 2
  omega

theorem lowestUnusedIDQuery_firstIDs (r : Repository) (k : Nat) (h : taskIDs r = firstIDs k) :
    lowestUnusedIDQuery r = (k : Int) + 1 := by
  cases k with
  | zero =>
    have : r.Tasks = [] := by
      simpa [taskIDs, firstIDs] using h
    simpa using lowestUnusedIDQuery_nil r this
  | succ k =>
    have hmem : ∀ x, x ∈ taskIDs r ↔ 1 ≤ x ∧ x ≤ ((k + 1 : Nat) : Int) := by
      intro x
      rw [h]
      exact mem_firstIDs _ x
    have hpos : ∀ x ∈ taskIDs r, 1 ≤ x := fun x hx => ((hmem x).1 hx).1
    have h1 : (1 : Int) ∈ taskIDs r := (hmem 1).2 ⟨le_refl _, by omega⟩
    refine (lowestUnusedIDQuery_isLeast_pos r hpos h1).unique ⟨⟨by omega, ?_⟩, ?_⟩
    · intro hx
      have := ((hmem _).1 hx).2
      omega
    · rintro n ⟨hn1, hn2⟩
      by_contra hlt
      exact hn2 ((hmem n).2 ⟨hn1, by omega⟩)

theorem createTasks_firstIDs (args : List (Task × Time × Time)) :
    ∀ (r : Repository) (k : Nat), taskIDs r = firstIDs k →
      ((createTasks r args).1.map fun o => o.1) = List.replicate args.length none ∧
      ((createTasks r args).1.map fun o => o.2.ID) =
        (List.range' (k + 1) args.length).map Int.ofNat ∧
      taskIDs (createTasks r args).2 = firstIDs (k + args.length) := by
  induction args with
  | nil => intro r k h; simpa [createTasks] using h
  | cons a rest ih =>
    intro r k h
    obtain ⟨task, now1, now2⟩ := a
    have hq := lowestUnusedIDQuery_firstIDs r k h
    have hnext : taskIDs (CreateTask r task now1 now2).2.2 = firstIDs (k + 1) := by
      rw [taskIDs_CreateTask, firstIDs_succ, h, hq]
    obtain ⟨ih1, ih2, ih3⟩ := ih _ (k + 1) hnext
    simp only [createTasks, List.map_cons, List.length_cons, ih1, ih2, ih3]
    refine ⟨?_, ?_, ?_⟩
    · rw [CreateTask_err, List.replicate_succ]
    · rw [CreateTask_ID, hq, List.range'_succ, List.map_cons]
      simp
    · congr 1
      omega

/-! ## `GetTaskByID`, `UpdateTask`, `DeleteTask` -/

theorem find?_ID_none (l : List Task) (id : Int) (h : ∀ t ∈ l, t.ID ≠ id) :
    l.find? (fun t => t.ID == id) = none := by
  rw [List.find?_eq_none]
  intro t ht
  simpa using h t ht

theorem find?_ID_filter_ne (l : List Task) (id j : Int) (h : j ≠ id) :
    (l.filter fun t => !(t.ID == id)).find? (fun t => t.ID == j) =
      l.find? (fun t => t.ID == j) := by
  induction l with
  | nil => rfl
  | cons a l ih =>
    by_cases ha : a.ID = id
    · have hj : ¬ a.ID = j := fun hj => h (hj ▸ ha)
      have h1 : (a.ID == id) = true := by simpa using ha
      have h2 : (a.ID == j) = false := by simpa using hj
      simp only [List.filter_cons, List.find?_cons, h1, h2, Bool.not_true, Bool.false_eq_true,
        if_false]
      exact ih
    · have h1 : (a.ID == id) = false := by simpa using ha
      by_cases hj : a.ID = j
      · have h2 : (a.ID == j) = true := by simpa using hj
        simp only [List.filter_cons, List.find?_cons, h1, h2, Bool.not_false, if_true]
      · have h2 : (a.ID == j) = false := by simpa using hj
        simp only [List.filter_cons, List.find?_cons, h1, h2, Bool.not_false, if_true]
        exact ih

theorem UpdateTask_getElem? (r : Repository) (task : Task) (now : Time) (i : Nat) :
    (UpdateTask r task now).2.2.Tasks[i]? =
      r.Tasks[i]?.map fun row =>
        if row.ID == task.ID then setTaskColumns row { task with LastUpdatedDate := now }
        else row := by
  simp [UpdateTask, List.getElem?_map]

/-! ## The 64-bit limit: `GetNextProjectID` and the allocation query -/

theorem scanInt_of_mem {v : Int} (h1 : minInt64 ≤ v) (h2 : v ≤ maxInt64) :
    scanInt v = .ok v := by
  simp [scanInt, h1, h2]

theorem scanInt_of_gt {v : Int} (h : maxInt64 < v) : scanInt v = .error .ScanConversion := by
  have : ¬ v ≤ maxInt64 := by omega
  simp [scanInt, this]

theorem GetNextProjectID_of_max (r : Repository) (m : Int) (hm : m ∈ projectIDs r)
    (hmax : ∀ x ∈ projectIDs r, x ≤ m) (h1 : minInt64 ≤ m) (h2 : m < maxInt64) :
    GetNextProjectID r = (m + 1, none, r) := by
  obtain ⟨q, hq⟩ := sqlMax_isSome (List.ne_nil_of_mem hm)
  obtain ⟨hq1, hq2⟩ := sqlMax_eq_some hq
  have hqm : q = m := le_antisymm (hmax q hq1) (hq2 m hm)
  subst hqm
  simp only [GetNextProjectID, hq, coalesce]
  rw [scanInt_of_mem (by omega) (by omega)]

theorem GetNextProjectID_of_maxInt64 (r : Repository) (hm : maxInt64 ∈ projectIDs r) :
    GetNextProjectID r = (0, some .ScanConversion, r) := by
  obtain ⟨q, hq⟩ := sqlMax_isSome (List.ne_nil_of_mem hm)
  obtain ⟨-, hq2⟩ := sqlMax_eq_some hq
  have := hq2 _ hm
  simp only [GetNextProjectID, hq, coalesce]
  rw [scanInt_of_gt (by omega)]

theorem GetNextProjectID_store (r : Repository) : (GetNextProjectID r).2.2 = r := by
  unfold GetNextProjectID
  split <;> rfl

/-- Below the greatest Go `int` the value of the allocation query is a Go
`int`. -/
theorem lowestUnusedIDQuery_le_maxInt64 (r : Repository) (m : Int) (hm : m ∈ taskIDs r)
    (hb : ∀ x ∈ taskIDs r, x < maxInt64) : lowestUnusedIDQuery r ≤ maxInt64 := by
  obtain ⟨t, ht, hq, -⟩ := (mem_unusedSuccessors _ _).1 (lowestUnusedIDQuery_spec r m hm).1
  have := hb t.ID ((mem_taskIDs r _).2 ⟨t, ht, rfl⟩)
  omega

/-! ## The claims -/

/-- C1 (the code departs from the claim): after three creations and the
deletion of task 1 the stored IDs are 2 and 3; the next `CreateTask` succeeds
and assigns ID 4, although 1 is the smallest positive integer that no task
has. -/
theorem CreateTask_skips_free_ID_below_minimum :
    taskIDs (runOps (noTasks [sampleProject 1]) createThreeDeleteFirst) = [2, 3] ∧
    (CreateTask (runOps (noTasks [sampleProject 1]) createThreeDeleteFirst)
      (sampleTask 0) 40 40).1 = none ∧
    (CreateTask (runOps (noTasks [sampleProject 1]) createThreeDeleteFirst)
      (sampleTask 0) 40 40).2.1.ID = 4 ∧
    IsLeast
      {n : Int | 1 ≤ n ∧ n ∉ taskIDs (runOps (noTasks [sampleProject 1]) createThreeDeleteFirst)}
      1 := by
  have hids : taskIDs (runOps (noTasks [sampleProject 1]) createThreeDeleteFirst) = [2, 3] := by
    decide
  refine ⟨hids, by decide, by decide, ⟨le_refl _, ?_⟩, fun n hn => hn.1⟩
  rw [hids]
  decide

/-- C2: when every stored ID is at least 1 and ID 1 is stored, `CreateTask`
succeeds and assigns the smallest positive integer that no task has; this
holds in particular in every state reached from an empty table in which ID 1
is stored.  With the IDs 1, 2 and 4 stored the new task receives ID 3, and
after three creations (IDs 1, 2, 3) and the deletion of task 2 the next
created task receives ID 2. -/
theorem CreateTask_fills_lowest_gap :
    (∀ (r : Repository) (task : Task) (now1 now2 : Time),
        (∀ x ∈ taskIDs r, 1 ≤ x) → 1 ∈ taskIDs r →
        (CreateTask r task now1 now2).1 = none ∧
        IsLeast {n : Int | 1 ≤ n ∧ n ∉ taskIDs r} (CreateTask r task now1 now2).2.1.ID) ∧
    (∀ (ps : List Project) (ops : List TaskOp) (task : Task) (now1 now2 : Time),
        1 ∈ taskIDs (runOps (noTasks ps) ops) →
        (CreateTask (runOps (noTasks ps) ops) task now1 now2).1 = none ∧
        IsLeast {n : Int | 1 ≤ n ∧ n ∉ taskIDs (runOps (noTasks ps) ops)}
          (CreateTask (runOps (noTasks ps) ops) task now1 now2).2.1.ID) ∧
    (∀ (r : Repository) (task : Task) (now1 now2 : Time),
        (∀ x, x ∈ taskIDs r ↔ x = 1 ∨ x = 2 ∨ x = 4) →
        (CreateTask r task now1 now2).2.1.ID = 3) ∧
    (∀ (ps : List Project) (a b c : Task × Time × Time) (task : Task) (now1 now2 : Time),
        taskIDs (createTasks (noTasks ps) [a, b, c]).2 = [1, 2, 3] ∧
        (CreateTask (DeleteTask (createTasks (noTasks ps) [a, b, c]).2 2).2
          task now1 now2).2.1.ID = 2) := by
  refine ⟨?_, ?_, ?_, ?_⟩
  · intro r task now1 now2 hpos h1
    rw [CreateTask_ID]
    exact ⟨CreateTask_err _ _ _ _, lowestUnusedIDQuery_isLeast_pos r hpos h1⟩
  · intro ps ops task now1 now2 h1
    rw [CreateTask_ID]
    exact ⟨CreateTask_err _ _ _ _, lowestUnusedIDQuery_isLeast_pos _
      (IDsValid_runOps ops _ (IDsValid_noTasks ps)).2 h1⟩
  · intro r task now1 now2 hmem
    rw [CreateTask_ID]
    have hpos : ∀ x ∈ taskIDs r, 1 ≤ x := by
      intro x hx
      rcases (hmem x).1 hx with h | h | h <;> omega
    have h1 : (1 : Int) ∈ taskIDs r := (hmem 1).2 (Or.inl rfl)
    refine (lowestUnusedIDQuery_isLeast_pos r hpos h1).unique ⟨⟨by omega, ?_⟩, ?_⟩
    · intro hx
      rcases (hmem 3).1 hx with h | h | h <;> omega
    · rintro n ⟨hn1, hn2⟩
      by_contra hlt
      have h12 : n = 1 ∨ n = 2 := by omega
      exact hn2 ((hmem n).2 (by omega))
  · intro ps a b c task now1 now2
    have h3 : taskIDs (createTasks (noTasks ps) [a, b, c]).2 = [1, 2, 3] := by
      have := (createTasks_firstIDs [a, b, c] (noTasks ps) 0 rfl).2.2
      rw [this]
      exact (by decide : firstIDs 3 = [1, 2, 3])
    refine ⟨h3, ?_⟩
    rw [CreateTask_ID]
    have hids : taskIDs (DeleteTask (createTasks (noTasks ps) [a, b, c]).2 2).2 = [1, 3] := by
      rw [taskIDs_DeleteTask, h3]
      decide
    have hpos : ∀ x ∈ taskIDs (DeleteTask (createTasks (noTasks ps) [a, b, c]).2 2).2,
        1 ≤ x := by
      rw [hids]
      decide
    have h1 : (1 : Int) ∈ taskIDs (DeleteTask (createTasks (noTasks ps) [a, b, c]).2 2).2 := by
      rw [hids]
      decide
    refine (lowestUnusedIDQuery_isLeast_pos _ hpos h1).unique ⟨⟨by omega, ?_⟩, ?_⟩
    · rw [hids]
      decide
    · rintro n ⟨hn1, hn2⟩
      rw [hids] at hn2
      by_contra hlt
      have : n = 1 := by omega
      subst this
      exact hn2 (by decide)

/-- C2 at the store with the task IDs 1, 2 and 4. -/
theorem CreateTask_fills_lowest_gap_witness :
    (CreateTask (storeWithIDs [1, 2, 4]) (sampleTask 0) 7 8).1 = none ∧
    IsLeast {n : Int | 1 ≤ n ∧ n ∉ taskIDs (storeWithIDs [1, 2, 4])}
      (CreateTask (storeWithIDs [1, 2, 4]) (sampleTask 0) 7 8).2.1.ID :=
  CreateTask_fills_lowest_gap.1 (storeWithIDs [1, 2, 4]) (sampleTask 0) 7 8
    (by decide) (by decide)

/-- C3: on a table without tasks `CreateTask` succeeds and writes ID 1 into
the caller's record; successive `CreateTask` calls from a table without tasks
all succeed, write the IDs 1, 2, ..., n into the callers' records in call
order, and leave exactly these IDs stored. -/
theorem createTasks_assigns_consecutive_IDs (ps : List Project)
    (args : List (Task × Time × Time)) :
    (∀ (task : Task) (now1 now2 : Time),
      (CreateTask (noTasks ps) task now1 now2).1 = none ∧
      (CreateTask (noTasks ps) task now1 now2).2.1.ID = 1) ∧
    ((createTasks (noTasks ps) args).1.map fun o => o.1) = List.replicate args.length none ∧
    ((createTasks (noTasks ps) args).1.map fun o => o.2.ID) =
      (List.range' 1 args.length).map Int.ofNat ∧
    taskIDs (createTasks (noTasks ps) args).2 = (List.range' 1 args.length).map Int.ofNat := by
  obtain ⟨h1, h2, h3⟩ := createTasks_firstIDs args (noTasks ps) 0 rfl
  refine ⟨?_, h1, ?_, ?_⟩
  · intro task now1 now2
    rw [CreateTask_ID]
    exact ⟨CreateTask_err _ _ _ _, lowestUnusedIDQuery_nil _ rfl⟩
  · simpa using h2
  · simpa [firstIDs] using h3

/-- C3 at three calls on a store with project 1 and no task. -/
theorem createTasks_assigns_consecutive_IDs_witness :
    ((createTasks (noTasks [sampleProject 1])
        [(sampleTask 0, 10, 11), (editedTask, 20, 21), (sampleTask 9, 30, 31)]).1.map
      fun o => (o.1, o.2.ID)) = [(none, 1), (none, 2), (none, 3)] ∧
    taskIDs (createTasks (noTasks [sampleProject 1])
        [(sampleTask 0, 10, 11), (editedTask, 20, 21), (sampleTask 9, 30, 31)]).2 = [1, 2, 3] := by
  obtain ⟨-, h1, h2, h3⟩ := createTasks_assigns_consecutive_IDs [sampleProject 1]
    [(sampleTask 0, 10, 11), (editedTask, 20, 21), (sampleTask 9, 30, 31)]
  refine ⟨?_, h3⟩
  have h : ∀ l : List (Option DBError × Task),
      (l.map fun o => (o.1, o.2.ID)) = (l.map fun o => o.1).zip (l.map fun o => o.2.ID) := by
    intro l
    induction l with
    | nil => rfl
    | cons a l ih => simp [ih]
  rw [h, h1, h2]
  rfl

/-- C4: when `CreateTask` succeeds, `GetTaskByID` at the ID written back
succeeds and returns a record with the supplied Name, Description, ProjectID,
TaskCompleted, DueDate, CompletionDate and Priority, with the ID written
back, and with the two stamps of the caller's record, which are the two clock
readings of the call. -/
theorem GetTaskByID_after_CreateTask (r : Repository) (task : Task) (now1 now2 : Time)
    (hok : (CreateTask r task now1 now2).1 = none) :
    ∃ got : Task,
      GetTaskByID (CreateTask r task now1 now2).2.2 (CreateTask r task now1 now2).2.1.ID
        = .ok got ∧
      got.Name = task.Name ∧ got.Description = task.Description ∧
      got.ProjectID = task.ProjectID ∧ got.TaskCompleted = task.TaskCompleted ∧
      got.DueDate = task.DueDate ∧ got.CompletionDate = task.CompletionDate ∧
      got.Priority = task.Priority ∧
      got.ID = (CreateTask r task now1 now2).2.1.ID ∧
      got.CreationDate = (CreateTask r task now1 now2).2.1.CreationDate ∧
      got.LastUpdatedDate = (CreateTask r task now1 now2).2.1.LastUpdatedDate ∧
      (CreateTask r task now1 now2).2.1.CreationDate = now1 ∧
      (CreateTask r task now1 now2).2.1.LastUpdatedDate = now2 := by
  unfold CreateTask at hok ⊢
  simp only [] at hok ⊢
  cases hins : insertTask r.Tasks
      { task with CreationDate := now1, LastUpdatedDate := now2,
                  ID := lowestUnusedIDQuery r } with
  | error e => simp [hins] at hok
  | ok rows =>
    obtain ⟨hrows, hfresh⟩ := insertTask_ok hins
    have hfind : r.Tasks.find? (fun t => t.ID == lowestUnusedIDQuery r) = none :=
      find?_ID_none _ _ hfresh
    refine ⟨{ task with CreationDate := now1, LastUpdatedDate := now2,
                        ID := lowestUnusedIDQuery r }, ?_, rfl, rfl, rfl, rfl, rfl, rfl, rfl,
      rfl, rfl, rfl, rfl, rfl⟩
    simp only [GetTaskByID, hrows, List.find?_append, hfind, Option.none_or, List.find?_cons,
      beq_self_eq_true]

/-- C4 at the store with the task IDs 1 and 2. -/
theorem GetTaskByID_after_CreateTask_witness :
    ∃ got : Task,
      GetTaskByID (CreateTask (storeWithIDs [1, 2]) editedTask 5 6).2.2
        (CreateTask (storeWithIDs [1, 2]) editedTask 5 6).2.1.ID = .ok got ∧
      got.Name = "edited" ∧ got.ID = 3 ∧ got.CreationDate = 5 ∧ got.LastUpdatedDate = 6 := by
  obtain ⟨got, h, hn, -, -, -, -, -, -, hid, hc, hl, hc2, hl2⟩ :=
    GetTaskByID_after_CreateTask (storeWithIDs [1, 2]) editedTask 5 6 (by decide)
  refine ⟨got, h, hn, ?_, ?_, ?_⟩
  · rw [hid]
    decide
  · rw [hc, hc2]
  · rw [hl, hl2]

/-- C5: `UpdateTask` returns no error, leaves in the caller's record only the
new LastUpdatedDate, and keeps the number and order of the rows; a row whose
ID is the record's ID takes the record's Name, Description, ProjectID,
TaskCompleted, DueDate, CompletionDate, Priority and LastUpdatedDate (the
clock reading) and keeps its ID and its CreationDate, whatever the record's
CreationDate is; every other row is unchanged. -/
theorem UpdateTask_replaces_mutable_columns (r : Repository) (task : Task) (now : Time) :
    (UpdateTask r task now).1 = none ∧
    (UpdateTask r task now).2.1 = { task with LastUpdatedDate := now } ∧
    (UpdateTask r task now).2.2.Projects = r.Projects ∧
    (UpdateTask r task now).2.2.Tasks.length = r.Tasks.length ∧
    ∀ (i : Nat) (row : Task), r.Tasks[i]? = some row →
      ∃ row2 : Task, (UpdateTask r task now).2.2.Tasks[i]? = some row2 ∧
        (row.ID = task.ID →
          row2.Name = task.Name ∧ row2.Description = task.Description ∧
          row2.ProjectID = task.ProjectID ∧ row2.TaskCompleted = task.TaskCompleted ∧
          row2.DueDate = task.DueDate ∧ row2.CompletionDate = task.CompletionDate ∧
          row2.Priority = task.Priority ∧
          row2.LastUpdatedDate = (UpdateTask r task now).2.1.LastUpdatedDate ∧
          row2.LastUpdatedDate = now ∧
          row2.ID = row.ID ∧ row2.CreationDate = row.CreationDate) ∧
        (row.ID ≠ task.ID → row2 = row) := by
  refine ⟨rfl, rfl, rfl, by simp [UpdateTask], ?_⟩
  intro i row hrow
  rw [UpdateTask_getElem?, hrow]
  refine ⟨_, rfl, ?_, ?_⟩
  · intro hid
    have : (row.ID == task.ID) = true := by simpa using hid
    simp only [this, if_true]
    exact ⟨rfl, rfl, rfl, rfl, rfl, rfl, rfl, rfl, rfl, rfl, rfl⟩
  · intro hid
    have : (row.ID == task.ID) = false := by simpa using hid
    simp only [this, Bool.false_eq_true, if_false]

/-- C5 at the store with the task IDs 1 and 2, updating task 2. -/
theorem UpdateTask_replaces_mutable_columns_witness :
    ∃ row2 : Task,
      (UpdateTask (storeWithIDs [1, 2]) editedTask 99).2.2.Tasks[1]? = some row2 ∧
      row2.Name = "edited" ∧ row2.LastUpdatedDate = 99 ∧ row2.ID = 2 ∧
      row2.CreationDate = 0 := by
  obtain ⟨row2, h, hsame, -⟩ :=
    (UpdateTask_replaces_mutable_columns (storeWithIDs [1, 2]) editedTask 99).2.2.2.2
      1 (sampleTask 2) (by decide)
  obtain ⟨hn, -, -, -, -, -, -, -, hl, hid, hc⟩ := hsame (by decide)
  exact ⟨row2, h, hn, hl, hid, hc⟩

/-- C6: `DeleteTask` returns no error; afterwards `GetTaskByID` at the deleted
ID returns the not-found error (and no record), and at every other ID it
returns what it returned before the deletion. -/
theorem GetTaskByID_after_DeleteTask (r : Repository) (id : Int) :
    (DeleteTask r id).1 = none ∧
    GetTaskByID (DeleteTask r id).2 id = .error .ErrNoRows ∧
    ∀ j : Int, j ≠ id → GetTaskByID (DeleteTask r id).2 j = GetTaskByID r j := by
  refine ⟨rfl, ?_, ?_⟩
  · have : (r.Tasks.filter fun t => !(t.ID == id)).find? (fun t => t.ID == id) = none := by
      apply find?_ID_none
      intro t ht
      simpa using (List.mem_filter.1 ht).2
    simp only [GetTaskByID, DeleteTask, this]
  · intro j hj
    simp only [GetTaskByID, DeleteTask, find?_ID_filter_ne _ _ _ hj]

/-- C6 at the store with the task IDs 1, 2 and 3, deleting task 2 and reading
task 3. -/
theorem GetTaskByID_after_DeleteTask_witness :
    GetTaskByID (DeleteTask (storeWithIDs [1, 2, 3]) 2).2 3 =
      GetTaskByID (storeWithIDs [1, 2, 3]) 3 :=
  (GetTaskByID_after_DeleteTask (storeWithIDs [1, 2, 3]) 2).2.2 3 (by decide)

/-- C7: for an ID that no stored task has, `UpdateTask` on a record with that
ID and `DeleteTask` on that ID return no error and leave the store as it
was. -/
theorem UpdateTask_DeleteTask_absent_ID (r : Repository) (id : Int) (h : id ∉ taskIDs r) :
    (∀ (task : Task) (now : Time), task.ID = id →
      (UpdateTask r task now).1 = none ∧ (UpdateTask r task now).2.2 = r) ∧
    (DeleteTask r id).1 = none ∧ (DeleteTask r id).2 = r := by
  have hne : ∀ t ∈ r.Tasks, t.ID ≠ id := fun t ht heq =>
    h ((mem_taskIDs r _).2 ⟨t, ht, heq⟩)
  refine ⟨?_, rfl, ?_⟩
  · intro task now htask
    refine ⟨rfl, ?_⟩
    have hmap : (r.Tasks.map fun row =>
        if row.ID == task.ID then setTaskColumns row { task with LastUpdatedDate := now }
        else row) = r.Tasks := by
      conv_rhs => rw [← List.map_id r.Tasks]
      apply List.map_congr_left
      intro row hrow
      have : (row.ID == task.ID) = false := by
        rw [htask]
        simpa using hne row hrow
      simp [this]
    simp only [UpdateTask, hmap]
  · have hfilter : (r.Tasks.filter fun t => !(t.ID == id)) = r.Tasks := by
      rw [List.filter_eq_self]
      intro t ht
      simpa using hne t ht
    simp only [DeleteTask, hfilter]

/-- C7 at the store with the task IDs 1 and 2 and the absent ID 5. -/
theorem UpdateTask_DeleteTask_absent_ID_witness :
    (∀ (task : Task) (now : Time), task.ID = 5 →
      (UpdateTask (storeWithIDs [1, 2]) task now).1 = none ∧
      (UpdateTask (storeWithIDs [1, 2]) task now).2.2 = storeWithIDs [1, 2]) ∧
    (DeleteTask (storeWithIDs [1, 2]) 5).1 = none ∧
    (DeleteTask (storeWithIDs [1, 2]) 5).2 = storeWithIDs [1, 2] :=
  UpdateTask_DeleteTask_absent_ID (storeWithIDs [1, 2]) 5 (by decide)

/-- C8 (what the code does): on a store whose project IDs are Go `int`
values, `GetNextProjectID` leaves the store as it was; it returns 1 and no
error when there is no project; when the greatest project ID `m` is below
`maxInt64` it returns `m + 1` and no error, a value above every project ID;
when the ID `maxInt64` is stored it returns 0 and the error of the `Scan`; a
second call right after the first returns the same value and error. -/
theorem GetNextProjectID_spec (r : Repository)
    (hwf : ∀ x ∈ projectIDs r, minInt64 ≤ x ∧ x ≤ maxInt64) :
    (GetNextProjectID r).2.2 = r ∧
    (r.Projects = [] → (GetNextProjectID r).1 = 1 ∧ (GetNextProjectID r).2.1 = none) ∧
    (∀ m : Int, m ∈ projectIDs r → (∀ x ∈ projectIDs r, x ≤ m) → m < maxInt64 →
      (GetNextProjectID r).1 = m + 1 ∧ (GetNextProjectID r).2.1 = none ∧
      ∀ x ∈ projectIDs r, x < (GetNextProjectID r).1) ∧
    (maxInt64 ∈ projectIDs r →
      (GetNextProjectID r).1 = 0 ∧ (GetNextProjectID r).2.1 = some .ScanConversion) ∧
    GetNextProjectID (GetNextProjectID r).2.2 = GetNextProjectID r := by
  refine ⟨GetNextProjectID_store r, ?_, ?_, ?_, by rw [GetNextProjectID_store]⟩
  · intro h
    have : GetNextProjectID r = (1, none, r) := by
      simp only [GetNextProjectID, projectIDs, h, List.map_nil, sqlMax, coalesce, zero_add]
      rw [scanInt_of_mem (by decide) (by decide)]
    rw [this]
    exact ⟨rfl, rfl⟩
  · intro m hm hmax hlt
    rw [GetNextProjectID_of_max r m hm hmax (hwf m hm).1 hlt]
    refine ⟨rfl, rfl, ?_⟩
    intro x hx
    have := hmax x hx
    show x < m + 1
    omega
  · intro hm
    rw [GetNextProjectID_of_maxInt64 r hm]
    exact ⟨rfl, rfl⟩

/-- C8 at the store with the project IDs 1, 5 and 3: the value is 6, the gaps
2 and 4 are not reused. -/
theorem GetNextProjectID_spec_witness :
    (GetNextProjectID (storeWithProjectIDs [1, 5, 3])).1 = 5 + 1 ∧
    (GetNextProjectID (storeWithProjectIDs [1, 5, 3])).2.1 = none ∧
    ∀ x ∈ projectIDs (storeWithProjectIDs [1, 5, 3]),
      x < (GetNextProjectID (storeWithProjectIDs [1, 5, 3])).1 :=
  (GetNextProjectID_spec (storeWithProjectIDs [1, 5, 3]) (by decide)).2.2.1 5
    (by decide) (by decide) (by decide)

/-- C8 (the claim as stated fails): with the projects 1 and `maxInt64` stored,
`GetNextProjectID` returns 0 and the error of the `Scan`; the value is not the
greatest project ID plus one and does not exceed the stored project IDs. -/
theorem GetNextProjectID_at_maxInt64 :
    projectIDs (storeWithProjectIDs [1, maxInt64]) = [1, 9223372036854775807] ∧
    (GetNextProjectID (storeWithProjectIDs [1, maxInt64])).1 = 0 ∧
    (GetNextProjectID (storeWithProjectIDs [1, maxInt64])).2.1 = some .ScanConversion ∧
    ¬ ((GetNextProjectID (storeWithProjectIDs [1, maxInt64])).1 = 9223372036854775807 + 1) ∧
    ¬ (∀ x ∈ projectIDs (storeWithProjectIDs [1, maxInt64]),
        x < (GetNextProjectID (storeWithProjectIDs [1, maxInt64])).1) := by
  decide

/-- C9: on a table whose least stored ID is `m` and whose IDs are below
`maxInt64`, `CreateTask` succeeds and assigns the smallest integer above `m`
that no task has, a Go `int`; every integer from `m` up to the assigned ID is
stored, so the assigned ID ends the run of IDs that starts at `m`, and no
integer below `m` is assigned.  The same holds, without a bound, in every
non-empty state reached from a table without tasks.  With the IDs 2 and 3
stored the new task receives ID 4. -/
theorem CreateTask_ID_above_minimum :
    (∀ (r : Repository) (task : Task) (now1 now2 : Time) (m : Int),
        m ∈ taskIDs r → (∀ x ∈ taskIDs r, m ≤ x) → (∀ x ∈ taskIDs r, x < maxInt64) →
        (CreateTask r task now1 now2).1 = none ∧
        IsLeast {n : Int | m < n ∧ n ∉ taskIDs r} (CreateTask r task now1 now2).2.1.ID ∧
        (∀ k : Int, m ≤ k → k < (CreateTask r task now1 now2).2.1.ID → k ∈ taskIDs r) ∧
        (CreateTask r task now1 now2).2.1.ID ≤ maxInt64) ∧
    (∀ (ps : List Project) (ops : List TaskOp) (task : Task) (now1 now2 : Time) (m : Int),
        m ∈ taskIDs (runOps (noTasks ps) ops) →
        (∀ x ∈ taskIDs (runOps (noTasks ps) ops), m ≤ x) →
        (CreateTask (runOps (noTasks ps) ops) task now1 now2).1 = none ∧
        IsLeast {n : Int | m < n ∧ n ∉ taskIDs (runOps (noTasks ps) ops)}
          (CreateTask (runOps (noTasks ps) ops) task now1 now2).2.1.ID ∧
        (∀ k : Int, m ≤ k →
          k < (CreateTask (runOps (noTasks ps) ops) task now1 now2).2.1.ID →
          k ∈ taskIDs (runOps (noTasks ps) ops))) ∧
    (∀ (r : Repository) (task : Task) (now1 now2 : Time),
        (∀ x, x ∈ taskIDs r ↔ x = 2 ∨ x = 3) →
        (CreateTask r task now1 now2).1 = none ∧
        (CreateTask r task now1 now2).2.1.ID = 4) := by
  have run : ∀ (r : Repository) (m : Int), m ∈ taskIDs r → (∀ x ∈ taskIDs r, m ≤ x) →
      ∀ k : Int, m ≤ k → k < lowestUnusedIDQuery r → k ∈ taskIDs r := by
    intro r m hm hmin k hk1 hk2
    by_contra hk
    have hkm : k ≠ m := fun h => hk (h ▸ hm)
    have := (lowestUnusedIDQuery_isLeast r m hm hmin).2 ⟨by omega, hk⟩
    omega
  refine ⟨?_, ?_, ?_⟩
  · intro r task now1 now2 m hm hmin hb
    rw [CreateTask_ID]
    exact ⟨CreateTask_err _ _ _ _, lowestUnusedIDQuery_isLeast r m hm hmin, run r m hm hmin,
      lowestUnusedIDQuery_le_maxInt64 r m hm hb⟩
  · intro ps ops task now1 now2 m hm hmin
    rw [CreateTask_ID]
    exact ⟨CreateTask_err _ _ _ _, lowestUnusedIDQuery_isLeast _ m hm hmin, run _ m hm hmin⟩
  · intro r task now1 now2 hmem
    rw [CreateTask_ID]
    refine ⟨CreateTask_err _ _ _ _, ?_⟩
    have hm : (2 : Int) ∈ taskIDs r := (hmem 2).2 (Or.inl rfl)
    have hmin : ∀ x ∈ taskIDs r, 2 ≤ x := by
      intro x hx
      rcases (hmem x).1 hx with h | h <;> omega
    refine (lowestUnusedIDQuery_isLeast r 2 hm hmin).unique ⟨⟨by omega, ?_⟩, ?_⟩
    · intro hx
      rcases (hmem 4).1 hx with h | h <;> omega
    · rintro n ⟨hn1, hn2⟩
      by_contra hlt
      exact hn2 ((hmem n).2 (by omega))

/-- C9 at the store with the task IDs 3 and 2. -/
theorem CreateTask_ID_above_minimum_witness :
    (CreateTask (storeWithIDs [3, 2]) (sampleTask 0) 7 8).1 = none ∧
    IsLeast {n : Int | 2 < n ∧ n ∉ taskIDs (storeWithIDs [3, 2])}
      (CreateTask (storeWithIDs [3, 2]) (sampleTask 0) 7 8).2.1.ID ∧
    (∀ k : Int, 2 ≤ k → k < (CreateTask (storeWithIDs [3, 2]) (sampleTask 0) 7 8).2.1.ID →
      k ∈ taskIDs (storeWithIDs [3, 2])) ∧
    (CreateTask (storeWithIDs [3, 2]) (sampleTask 0) 7 8).2.1.ID ≤ maxInt64 :=
  CreateTask_ID_above_minimum.1 (storeWithIDs [3, 2]) (sampleTask 0) 7 8 2
    (by decide) (by decide) (by decide)

/-- C10: in every state reached from a table without tasks by `CreateTask`,
`UpdateTask` and `DeleteTask` calls the stored task IDs are pairwise distinct
and at least 1; the ID the query of `CreateTask` computes is not a stored ID,
so the insert is accepted and `CreateTask` returns no error. -/
theorem stored_task_IDs_distinct_and_positive (ps : List Project) (ops : List TaskOp) :
    (taskIDs (runOps (noTasks ps) ops)).Nodup ∧
    (∀ x ∈ taskIDs (runOps (noTasks ps) ops), 1 ≤ x) ∧
    lowestUnusedIDQuery (runOps (noTasks ps) ops) ∉ taskIDs (runOps (noTasks ps) ops) ∧
    ∀ (task : Task) (now1 now2 : Time),
      insertTask (runOps (noTasks ps) ops).Tasks
        { task with CreationDate := now1, LastUpdatedDate := now2,
                    ID := lowestUnusedIDQuery (runOps (noTasks ps) ops) } =
        .ok ((runOps (noTasks ps) ops).Tasks ++
          [{ task with CreationDate := now1, LastUpdatedDate := now2,
                       ID := lowestUnusedIDQuery (runOps (noTasks ps) ops) }]) ∧
      (CreateTask (runOps (noTasks ps) ops) task now1 now2).1 = none ∧
      (CreateTask (runOps (noTasks ps) ops) task now1 now2).2.1.ID ∉
        taskIDs (runOps (noTasks ps) ops) := by
  obtain ⟨hnd, hpos⟩ := IDsValid_runOps ops _ (IDsValid_noTasks ps)
  refine ⟨hnd, hpos, lowestUnusedIDQuery_not_mem _, ?_⟩
  intro task now1 now2
  refine ⟨insertTask_lowestUnusedID _ _ rfl, CreateTask_err _ _ _ _, ?_⟩
  rw [CreateTask_ID]
  exact lowestUnusedIDQuery_not_mem _

/-- C10 at the state after three creations and the deletion of task 1. -/
theorem stored_task_IDs_distinct_and_positive_witness :
    (taskIDs (runOps (noTasks [sampleProject 1]) createThreeDeleteFirst)).Nodup ∧
    (∀ x ∈ taskIDs (runOps (noTasks [sampleProject 1]) createThreeDeleteFirst), 1 ≤ x) ∧
    lowestUnusedIDQuery (runOps (noTasks [sampleProject 1]) createThreeDeleteFirst) ∉
      taskIDs (runOps (noTasks [sampleProject 1]) createThreeDeleteFirst) :=
  ⟨(stored_task_IDs_distinct_and_positive [sampleProject 1] createThreeDeleteFirst).1,
    (stored_task_IDs_distinct_and_positive [sampleProject 1] createThreeDeleteFirst).2.1,
    (stored_task_IDs_distinct_and_positive [sampleProject 1] createThreeDeleteFirst).2.2.1⟩

end Gplan
